import Mathlib

/-!
Verification of the transcript sentiment pipeline
(`src/pipeline.py`, `src/llm_client.py`, `src/report.py`,
`src/ctev_earnings_call_analysis.py`).

Python strings are modelled as `List Char` (for the segmenter, which
inspects characters) or `String` (opaque payloads); Python floats as `ℚ`;
fallible Python code (`ZeroDivisionError`) as `Except PyError`; the
language-model oracle as an abstract reply value carrying either an
unparseable raw text or an already-decoded JSON payload, with the
pydantic field validation (`ge=-1.0, le=1.0`) made explicit.
-/

namespace CTEV

/-! ## Segmenter (`src/pipeline.py`, `split_into_chunks`) -/

/-- Python `str.isspace` on the characters relevant to `str.split()` /
`str.strip()`: space, tab, newline, carriage return, vertical tab, form feed. -/
def pyIsSpace (c : Char) : Bool :=
  c = ' ' || c = '\t' || c = '\n' || c = '\r' || c = '\x0b' || c = '\x0c'

/-- Worker for Python `str.split()` (no separator argument): splits on runs of
whitespace, discarding empties. `acc` holds the current word, reversed. -/
def wordsAux : List Char → List Char → List (List Char)
  | [], acc => if acc.isEmpty then [] else [acc.reverse]
  | c :: cs, acc =>
    if pyIsSpace c then
      if acc.isEmpty then wordsAux cs [] else acc.reverse :: wordsAux cs []
    else
      wordsAux cs (c :: acc)

/-- Python `text.split()`: the whitespace-separated words of `text`. -/
def pyWords (cs : List Char) : List (List Char) := wordsAux cs []

/-- Worker for Python `text.split("\n\n")`: a left-to-right scan for the
two-character separator; `acc` holds the current piece, reversed. -/
def paraAux : List Char → List Char → List (List Char)
  | [], acc => [acc.reverse]
  | [c], acc => [(c :: acc).reverse]
  | c :: d :: cs, acc =>
    if c = '\n' ∧ d = '\n' then acc.reverse :: paraAux cs []
    else paraAux (d :: cs) (c :: acc)

/-- Python `text.split("\n\n")`. -/
def pySplitParas (cs : List Char) : List (List Char) := paraAux cs []

/-- Python `str.strip()`: drop whitespace from both ends. -/
def pyStrip (cs : List Char) : List Char :=
  (((cs.dropWhile pyIsSpace).reverse).dropWhile pyIsSpace).reverse

/-- The grouping `words[i : i + max_words]` for `i in range(0, len(words),
max_words)`.  Python's `range` raises `ValueError` on step 0, so only
`k ≥ 1` models a real execution; `k = 0` returns `[]` here. -/
def chunkWords (k : Nat) (ws : List (List Char)) : List (List (List Char)) :=
  if ws.isEmpty ∨ k = 0 then [] else ws.take k :: chunkWords k (ws.drop k)
termination_by ws.length
decreasing_by
  rename_i h
  push_neg at h
  have hne : ws ≠ [] := by simpa [List.isEmpty_iff] using h.1
  have : 0 < ws.length := List.length_pos.mpr hne
  simp only [List.length_drop]
  omega

/-- Python `" ".join(words)`. -/
def joinSpace : List (List Char) → List Char
  | [] => []
  | [w] => w
  | w :: ws => w ++ ' ' :: joinSpace ws

/-- The inner loop of `split_into_chunks` for one paragraph `p`: its words
are regrouped in blocks of `max_words` and rejoined with single spaces,
keeping non-empty segments. -/
def paragraphChunks (max_words : Nat) (p : List Char) : List (List Char) :=
  ((chunkWords max_words (pyWords p)).map joinSpace).filter (fun s => !s.isEmpty)

/-- `split_into_chunks(text, max_words)` from `src/pipeline.py`: paragraphs
are the stripped, non-empty pieces of `text.split("\n\n")`; each is chunked
by `paragraphChunks`. -/
def split_into_chunks (text : List Char) (max_words : Nat) : List (List Char) :=
  let paragraphs := ((pySplitParas text).map pyStrip).filter (fun p => !p.isEmpty)
  paragraphs.flatMap (paragraphChunks max_words)

/-! ## Data model and oracle client (`src/llm_client.py`) -/

/-- `ChunkAnalysis` (pydantic): one record per chunk. The pydantic field
constraint `ge=-1.0, le=1.0` on `sentiment` is enforced by the parser
`parseChunkAnalysis` below, not by this structure. -/
structure ChunkAnalysis where
  topic : String
  sentiment : ℚ
  rationale : String
deriving DecidableEq, Repr

/-- `TopicAnalysis` (pydantic): one topic of a whole-transcript analysis. -/
structure TopicAnalysis where
  topic : String
  sentiment : ℚ
  minutes : ℚ
  words : Int
  rationale : String
deriving DecidableEq, Repr

/-- `FullTranscriptAnalysis` (pydantic): wrapper around the topics list. -/
structure FullTranscriptAnalysis where
  topics : List TopicAnalysis
deriving DecidableEq, Repr

/-- A topic object as decoded from the oracle's JSON, before pydantic
validation: the sentiment may be out of range. -/
structure RawTopic where
  topic : String
  sentiment : ℚ
  minutes : ℚ
  words : Int
  rationale : String
deriving DecidableEq, Repr

/-- The oracle's reply content (`response.choices[0].message.content`),
abstracted by how `json.loads` + pydantic construction would fare on it:
either text that is not the expected JSON (`malformed`, with the exception
message the Python json/pydantic layer would raise), or a decoded
single-chunk object, or a decoded object with a `topics` array.  `raw`
is the literal reply text, used in fallback rationales. -/
inductive OracleReply where
  | malformed (raw : String) (excMsg : String)
  | chunkPayload (raw : String) (topic : String) (sentiment : ℚ) (rationale : String)
  | topicsPayload (raw : String) (topics : List RawTopic)
deriving DecidableEq, Repr

/-- The literal reply text, as used in `content[:200]` in fallback messages. -/
def OracleReply.rawText : OracleReply → String
  | .malformed raw _ => raw
  | .chunkPayload raw _ _ _ => raw
  | .topicsPayload raw _ => raw

/-- Python exceptions that escape the modelled fragment. -/
inductive PyError where
  | zeroDivisionError
deriving DecidableEq, Repr

instance {e a : Type _} [DecidableEq e] [DecidableEq a] : DecidableEq (Except e a)
  | .error x, .error y =>
    if h : x = y then .isTrue (by rw [h]) else .isFalse (fun hc => h (Except.error.inj hc))
  | .error _, .ok _ => .isFalse (fun hc => Except.noConfusion hc)
  | .ok _, .error _ => .isFalse (fun hc => Except.noConfusion hc)
  | .ok x, .ok y =>
    if h : x = y then .isTrue (by rw [h]) else .isFalse (fun hc => h (Except.ok.inj hc))

/-- Python `a / b` on numbers (true division): `ZeroDivisionError` when `b = 0`. -/
def pyDivQ (a b : ℚ) : Except PyError ℚ :=
  if b = 0 then .error .zeroDivisionError else .ok (a / b)

/-- Python `a // b` on ints (floor division): `ZeroDivisionError` when `b = 0`. -/
def pyFloorDiv (a b : Int) : Except PyError Int :=
  if b = 0 then .error .zeroDivisionError else .ok (Int.fdiv a b)

/-- `len(transcript.split())`. -/
def pyWordCount (s : String) : Int := (pyWords s.data).length

/-- Pydantic construction `TopicAnalysis(**item)`: fails when the
sentiment violates `ge=-1.0, le=1.0` (pydantic rejects; it does not clip). -/
def mkTopicAnalysis (r : RawTopic) : Except String TopicAnalysis :=
  if -1 ≤ r.sentiment ∧ r.sentiment ≤ 1 then
    .ok ⟨r.topic, r.sentiment, r.minutes, r.words, r.rationale⟩
  else
    .error "validation error: sentiment not in range"

/-- `loads(content)` followed by `FullTranscriptAnalysis(**data)`: anything
other than a well-shaped `topics` payload whose every sentiment passes
validation raises, which the callers catch. -/
def parseFullTranscriptAnalysis : OracleReply → Except String FullTranscriptAnalysis
  | .malformed _ excMsg => .error excMsg
  | .chunkPayload _ _ _ _ => .error "validation error: field topics missing"
  | .topicsPayload _ ts => (ts.mapM mkTopicAnalysis).map FullTranscriptAnalysis.mk

/-- `loads(content)` followed by `ChunkAnalysis(**data)`. -/
def parseChunkAnalysis : OracleReply → Except String ChunkAnalysis
  | .malformed _ excMsg => .error excMsg
  | .chunkPayload _ t s r =>
    if -1 ≤ s ∧ s ≤ 1 then .ok ⟨t, s, r⟩
    else .error "validation error: sentiment not in range"
  | .topicsPayload _ _ => .error "validation error: fields topic, sentiment, rationale missing"

/-- One request issued to the oracle; `promptTranscript` is the
`transcript[:8000]` slice embedded in the user prompt. -/
structure OracleCall where
  promptTranscript : String
deriving DecidableEq, Repr

/-- `LLMClient.analyze_chunks`: one oracle call per chunk; a reply that fails
to parse is absorbed into an `Uncategorized` fallback record. -/
def analyze_chunks (oracle : String → OracleReply) (chunks : List String) :
    List ChunkAnalysis :=
  chunks.map fun chunk =>
    match parseChunkAnalysis (oracle chunk) with
    | .ok r => r
    | .error exc =>
      ⟨"Uncategorized", 0,
        "Parsing error: " ++ exc ++ ". Raw: " ++ (oracle chunk).rawText.take 200⟩

/-- `LLMClient.analyze_full_transcript`: computes `total_words / wpm` (a
`ZeroDivisionError` when `wpm = 0`, raised before the oracle request),
then issues one oracle call and parses the reply, degrading to a single
generic fallback record on any parse/validation failure.  The second
component lists the oracle calls actually issued. -/
def analyze_full_transcript (reply : OracleReply) (transcript : String) (wpm : Int) :
    Except PyError FullTranscriptAnalysis × List OracleCall :=
  let total_words : Int := pyWordCount transcript
  match pyDivQ (total_words : ℚ) (wpm : ℚ) with
  | .error e => (.error e, [])
  | .ok total_minutes =>
    let call : OracleCall := ⟨transcript.take 8000⟩
    match parseFullTranscriptAnalysis reply with
    | .ok fta => (.ok fta, [call])
    | .error exc =>
      (.ok ⟨[⟨"Full Transcript Analysis", 0, total_minutes, total_words,
        "Analysis error: " ++ exc ++ ". Raw: " ++ reply.rawText.take 200⟩]⟩, [call])

/-- `LLMClient.analyze_with_custom_topics`: as `analyze_full_transcript`, but
the parse-failure fallback builds one neutral record per requested topic,
dividing total minutes and words evenly; the divisions by
`len(custom_topics)` sit inside the `for topic in custom_topics` loop, so
they execute only when the list is non-empty. -/
def analyze_with_custom_topics (reply : OracleReply) (transcript : String)
    (custom_topics : List String) (wpm : Int) :
    Except PyError FullTranscriptAnalysis × List OracleCall :=
  let total_words : Int := pyWordCount transcript
  match pyDivQ (total_words : ℚ) (wpm : ℚ) with
  | .error e => (.error e, [])
  | .ok total_minutes =>
    let call : OracleCall := ⟨transcript.take 8000⟩
    match parseFullTranscriptAnalysis reply with
    | .ok fta => (.ok fta, [call])
    | .error exc =>
      match custom_topics.mapM (fun topic => do
          let m ← pyDivQ total_minutes (custom_topics.length : ℚ)
          let w ← pyFloorDiv total_words (custom_topics.length : Int)
          pure (⟨topic, 0, m, w,
            "Analysis error: " ++ exc ++ ". Using fallback values."⟩ : TopicAnalysis)) with
      | .error e => (.error e, [call])
      | .ok ts => (.ok ⟨ts⟩, [call])

/-! ## Pipeline (`src/pipeline.py`, `run_pipeline`) -/

/-- `PipelineConfig`; `inputText` stands for the content read from
`input_path`. -/
structure PipelineConfig where
  inputText : String
  words_per_minute : Int := 155
  max_topics : Nat := 10
  custom_topics : Option (List String) := none
deriving DecidableEq, Repr

/-- Python truthiness of `config.custom_topics`: `None` and `[]` are falsy. -/
def pyTruthy : Option (List String) → Bool
  | none => false
  | some l => ¬l.isEmpty

/-- Descending-by-`minutes` comparison used by
`df.sort_values("minutes", ascending=False)`. -/
def minutesGE (a b : TopicAnalysis) : Prop := b.minutes ≤ a.minutes

instance : DecidableRel minutesGE :=
  fun a b => inferInstanceAs (Decidable (b.minutes ≤ a.minutes))

instance : IsTotal TopicAnalysis minutesGE := ⟨fun a b => le_total b.minutes a.minutes⟩

instance : IsTrans TopicAnalysis minutesGE := ⟨fun _ _ _ h1 h2 => le_trans h2 h1⟩

/-- `df.sort_values("minutes", ascending=False)`: some descending reordering
of the rows.  pandas' default `kind="quicksort"` fixes no particular order
among tied `minutes`; this model resolves ties by original position. -/
def sortDescMinutes (l : List TopicAnalysis) : List TopicAnalysis :=
  List.insertionSort minutesGE l

/-- Lines 59–80 of `run_pipeline`: DataFrame construction from the analysis
topics (a field-for-field copy), the `df.empty` early return, the
descending sort on `minutes`, and the `head(max_topics)` cap. -/
def pipelineTable (records : List TopicAnalysis) (max_topics : Nat) :
    List TopicAnalysis :=
  if records.isEmpty then []
  else
    let sorted := sortDescMinutes records
    if max_topics < sorted.length then sorted.take max_topics else sorted

/-- `run_pipeline(config)`: route to the custom-topics analyzer exactly when
`config.custom_topics` is truthy, then tabulate.  Returns the resulting
rows (or the propagated Python exception) together with the list of oracle
calls issued. -/
def run_pipeline (reply : OracleReply) (config : PipelineConfig) :
    Except PyError (List TopicAnalysis) × List OracleCall :=
  let text := config.inputText
  let (res, calls) :=
    if pyTruthy config.custom_topics then
      analyze_with_custom_topics reply text (config.custom_topics.getD [])
        config.words_per_minute
    else
      analyze_full_transcript reply text config.words_per_minute
  match res with
  | .error e => (.error e, calls)
  | .ok analysis => (.ok (pipelineTable analysis.topics config.max_topics), calls)

/-- `estimate_minutes(word_count, wpm)` from `src/pipeline.py`: the divisor is
clamped to at least 1, so this helper never raises; no pipeline code calls it. -/
def estimate_minutes (word_count : Int) (wpm : Int) : ℚ :=
  (word_count : ℚ) / ((max wpm 1 : Int) : ℚ)

/-! ## Report renderer (`src/report.py` and
`src/ctev_earnings_call_analysis.py`) -/

/-- A colorscale stop: position in [0, 1] paired with a hex color. -/
abbrev ColorStop := ℚ × String

/-- `sentiment_colorscale(sentiments)` from `src/report.py`: computes the
min/max of the series (the results are unused), then unconditionally
returns the five-stop diverging red–white–green scale with
`(cmin, cmax) = (-1.0, 1.0)`. -/
def sentiment_colorscale (sentiments : List ℚ) : List ColorStop × ℚ × ℚ :=
  let min_s : ℚ := match sentiments with | [] => 0 | s :: rest => rest.foldl min s
  let max_s : ℚ := match sentiments with | [] => 0 | s :: rest => rest.foldl max s
  let _ := min_s
  let _ := max_s
  ([(0, "#d73027"), (1/4, "#fc8d59"), (1/2, "#f7f7f7"),
    (3/4, "#91cf60"), (1, "#1a9850")], -1, 1)

/-- `df["sentiment"].min()` over the (non-empty, at this point) frame in
`generate_heatmap`; 0 for an empty list, which the code path rules out. -/
def listMin (l : List ℚ) : ℚ := match l with | [] => 0 | s :: rest => rest.foldl min s

/-- Lines 207–224 of `EarningsCallAnalyzer.generate_heatmap`
(`src/ctev_earnings_call_analysis.py`): the Matplotlib normalization range
is `(0, 1)` when the minimum sentiment is ≥ 0 and `(-1, 1)` otherwise; the
colormap is `RdYlGn` in both branches. -/
def heatmap_color_norm (sentiments : List ℚ) : ℚ × ℚ × String :=
  let min_sentiment := listMin sentiments
  if 0 ≤ min_sentiment then (0, 1, "RdYlGn") else (-1, 1, "RdYlGn")

/-! ## Word-splitting lemmas -/

theorem wordsAux_nil (acc : List Char) :
    wordsAux [] acc = if acc.isEmpty then [] else [acc.reverse] := rfl

theorem wordsAux_cons_space (c : Char) (cs acc : List Char) (hc : pyIsSpace c = true) :
    wordsAux (c :: cs) acc =
      (if acc.isEmpty then [] else [acc.reverse]) ++ wordsAux cs [] := by
  cases hacc : acc.isEmpty <;> simp [wordsAux, hc, hacc]

theorem wordsAux_cons_nonspace (c : Char) (cs acc : List Char)
    (hc : pyIsSpace c = false) :
    wordsAux (c :: cs) acc = wordsAux cs (c :: acc) := by
  simp [wordsAux, hc]

theorem pyWords_cons_space (c : Char) (cs : List Char) (hc : pyIsSpace c = true) :
    pyWords (c :: cs) = pyWords cs := by
  unfold pyWords
  rw [wordsAux_cons_space c cs [] hc]
  simp

/-- Splitting across an inserted whitespace character decomposes as the split
of the two halves. -/
theorem wordsAux_append_space (c : Char) (hc : pyIsSpace c = true) :
    ∀ (a acc b : List Char), wordsAux (a ++ c :: b) acc = wordsAux a acc ++ pyWords b := by
  intro a
  induction a with
  | nil =>
    intro acc b
    simp only [List.nil_append]
    rw [wordsAux_cons_space c b acc hc, wordsAux_nil]
    rfl
  | cons x a ih =>
    intro acc b
    cases hx : pyIsSpace x with
    | true =>
      rw [List.cons_append, wordsAux_cons_space x _ acc hx,
        wordsAux_cons_space x a acc hx, ih, List.append_assoc]
    | false =>
      rw [List.cons_append, wordsAux_cons_nonspace x _ acc hx,
        wordsAux_cons_nonspace x a acc hx, ih]

/-- On whitespace-free input the splitter returns the single accumulated word. -/
theorem wordsAux_nonspace :
    ∀ (a acc : List Char), (∀ x ∈ a, pyIsSpace x = false) →
      wordsAux a acc = if acc.reverse ++ a = [] then [] else [acc.reverse ++ a] := by
  intro a
  induction a with
  | nil =>
    intro acc _
    rw [wordsAux_nil]
    cases acc <;> simp
  | cons x a ih =>
    intro acc h
    have hx : pyIsSpace x = false := h x (by simp)
    rw [wordsAux_cons_nonspace x a acc hx, ih (x :: acc) (fun y hy => h y (by simp [hy]))]
    simp [List.append_assoc]

theorem pyWords_of_nonspace (w : List Char) (hne : w ≠ [])
    (h : ∀ x ∈ w, pyIsSpace x = false) : pyWords w = [w] := by
  unfold pyWords
  rw [wordsAux_nonspace w [] h]
  simp [hne]

/-- All-whitespace input contributes at most the accumulated word. -/
theorem wordsAux_all_space :
    ∀ (t : List Char) (acc : List Char), (∀ x ∈ t, pyIsSpace x = true) →
      wordsAux t acc = if acc.isEmpty then [] else [acc.reverse] := by
  intro t
  induction t with
  | nil => intro acc _; rw [wordsAux_nil]
  | cons c t ih =>
    intro acc h
    have hc := h c (by simp)
    rw [wordsAux_cons_space c t acc hc, ih [] (fun y hy => h y (by simp [hy]))]
    simp

/-- Trailing whitespace does not change the word split. -/
theorem wordsAux_append_all_space (t : List Char) (ht : ∀ x ∈ t, pyIsSpace x = true) :
    ∀ (p acc : List Char), wordsAux (p ++ t) acc = wordsAux p acc := by
  intro p
  induction p with
  | nil =>
    intro acc
    rw [List.nil_append, wordsAux_all_space t acc ht, wordsAux_nil]
  | cons x p ih =>
    intro acc
    cases hx : pyIsSpace x with
    | true =>
      rw [List.cons_append, wordsAux_cons_space x _ acc hx,
        wordsAux_cons_space x p acc hx, ih]
    | false =>
      rw [List.cons_append, wordsAux_cons_nonspace x _ acc hx,
        wordsAux_cons_nonspace x p acc hx, ih]

/-- Leading whitespace does not change the word split. -/
theorem pyWords_dropWhile (cs : List Char) :
    pyWords (cs.dropWhile pyIsSpace) = pyWords cs := by
  induction cs with
  | nil => rfl
  | cons c cs ih =>
    cases hc : pyIsSpace c with
    | true =>
      rw [pyWords_cons_space c cs hc, ← ih]
      simp [List.dropWhile_cons, hc]
    | false => simp [List.dropWhile_cons, hc]

/-- `str.strip()` does not change the word split. -/
theorem pyWords_pyStrip (cs : List Char) : pyWords (pyStrip cs) = pyWords cs := by
  have ht : ∀ x ∈ ((cs.dropWhile pyIsSpace).reverse.takeWhile pyIsSpace).reverse,
      pyIsSpace x = true := by
    intro x hx
    exact List.mem_takeWhile_imp (List.mem_reverse.mp hx)
  have hdecomp : cs.dropWhile pyIsSpace =
      pyStrip cs ++ ((cs.dropWhile pyIsSpace).reverse.takeWhile pyIsSpace).reverse := by
    unfold pyStrip
    conv_lhs => rw [← List.reverse_reverse (cs.dropWhile pyIsSpace),
      ← List.takeWhile_append_dropWhile pyIsSpace (cs.dropWhile pyIsSpace).reverse]
    rw [List.reverse_append]
  have h1 : pyWords (cs.dropWhile pyIsSpace) = pyWords (pyStrip cs) := by
    conv_lhs => rw [hdecomp]
    exact wordsAux_append_all_space _ ht (pyStrip cs) []
  rw [← h1, pyWords_dropWhile]

theorem pyWords_eq_nil_of_strip_nil (cs : List Char) (h : pyStrip cs = []) :
    pyWords cs = [] := by
  rw [← pyWords_pyStrip cs, h]
  rfl

/-- Every produced word is non-empty and whitespace-free. -/
theorem of_mem_wordsAux :
    ∀ (cs acc : List Char), (∀ x ∈ acc, pyIsSpace x = false) →
      ∀ w ∈ wordsAux cs acc, w ≠ [] ∧ ∀ x ∈ w, pyIsSpace x = false := by
  intro cs
  induction cs with
  | nil =>
    intro acc hacc w hw
    rw [wordsAux_nil] at hw
    cases acc with
    | nil => simp at hw
    | cons y ys =>
      simp at hw
      subst hw
      refine ⟨by simp, fun x hx => hacc x ?_⟩
      simp at hx ⊢
      tauto
  | cons c cs ih =>
    intro acc hacc w hw
    cases hc : pyIsSpace c with
    | true =>
      rw [wordsAux_cons_space c cs acc hc] at hw
      rcases List.mem_append.mp hw with h1 | h2
      · cases acc with
        | nil => simp at h1
        | cons y ys =>
          simp at h1
          subst h1
          refine ⟨by simp, fun x hx => hacc x ?_⟩
          simp at hx ⊢
          tauto
      · exact ih [] (by simp) w h2
    | false =>
      rw [wordsAux_cons_nonspace c cs acc hc] at hw
      refine ih (c :: acc) ?_ w hw
      intro x hx
      rcases List.mem_cons.mp hx with rfl | hx2
      · exact hc
      · exact hacc x hx2

theorem of_mem_pyWords (cs w : List Char) (hw : w ∈ pyWords cs) :
    w ≠ [] ∧ ∀ x ∈ w, pyIsSpace x = false :=
  of_mem_wordsAux cs [] (by simp) w hw

/-- Splitting `" ".join(ws)` recovers `ws` when the words are non-empty and
whitespace-free. -/
theorem pyWords_joinSpace :
    ∀ ws : List (List Char), (∀ w ∈ ws, w ≠ [] ∧ ∀ x ∈ w, pyIsSpace x = false) →
      pyWords (joinSpace ws) = ws := by
  intro ws
  induction ws with
  | nil => intro _; rfl
  | cons w ws ih =>
    intro h
    have hw := h w (by simp)
    cases ws with
    | nil => exact pyWords_of_nonspace w hw.1 hw.2
    | cons w2 ws2 =>
      show pyWords (w ++ ' ' :: joinSpace (w2 :: ws2)) = w :: w2 :: ws2
      unfold pyWords
      rw [wordsAux_append_space ' ' (by decide) w [] (joinSpace (w2 :: ws2))]
      rw [show wordsAux w [] = [w] from pyWords_of_nonspace w hw.1 hw.2]
      rw [ih (fun u hu => h u (by simp [hu]))]
      rfl

theorem joinSpace_ne_nil :
    ∀ g : List (List Char), g ≠ [] → (∀ w ∈ g, w ≠ []) → joinSpace g ≠ [] := by
  intro g hg hw
  match g with
  | [w] => exact hw w (by simp)
  | w :: w2 :: ws =>
    show w ++ ' ' :: joinSpace (w2 :: ws) ≠ []
    simp

/-- The words of the pieces of `text.split("\n\n")`, concatenated in order,
are the words of `text`: the separator is itself whitespace. -/
theorem paraAux_words :
    ∀ (n : Nat) (cs : List Char), cs.length ≤ n → ∀ acc : List Char,
      ((paraAux cs acc).map pyWords).flatten = pyWords (acc.reverse ++ cs) := by
  intro n
  induction n with
  | zero =>
    intro cs hcs acc
    have hnil : cs = [] := List.length_eq_zero.mp (Nat.le_zero.mp hcs)
    subst hnil
    simp [paraAux]
  | succ n ih =>
    intro cs hcs acc
    match cs with
    | [] => simp [paraAux]
    | [c] => simp [paraAux]
    | c :: d :: cs' =>
      by_cases hcd : c = '\n' ∧ d = '\n'
      · obtain ⟨rfl, rfl⟩ := hcd
        rw [show paraAux ('\n' :: '\n' :: cs') acc = acc.reverse :: paraAux cs' [] from by
          simp [paraAux]]
        rw [List.map_cons, List.flatten_cons]
        rw [ih cs' (by simp at hcs ⊢; omega) []]
        rw [show pyWords (([] : List Char).reverse ++ cs') = pyWords cs' from by simp]
        rw [show pyWords (acc.reverse ++ '\n' :: '\n' :: cs')
            = pyWords acc.reverse ++ pyWords ('\n' :: cs') from
          wordsAux_append_space '\n' (by decide) acc.reverse [] ('\n' :: cs')]
        rw [pyWords_cons_space '\n' cs' (by decide)]
      · rw [show paraAux (c :: d :: cs') acc = paraAux (d :: cs') (c :: acc) from by
          simp [paraAux, hcd]]
        rw [ih (d :: cs') (by simp at hcs ⊢; omega) (c :: acc)]
        simp

theorem pySplitParas_words (cs : List Char) :
    ((pySplitParas cs).map pyWords).flatten = pyWords cs := by
  simpa using paraAux_words cs.length cs le_rfl []

/-- Regrouping in blocks and flattening is the identity (for block size ≥ 1). -/
theorem chunkWords_flatten :
    ∀ (n : Nat) (ws : List (List Char)), ws.length ≤ n → ∀ k, 1 ≤ k →
      (chunkWords k ws).flatten = ws := by
  intro n
  induction n with
  | zero =>
    intro ws hws k _
    have hnil : ws = [] := List.length_eq_zero.mp (Nat.le_zero.mp hws)
    subst hnil
    simp [chunkWords]
  | succ n ih =>
    intro ws hws k hk
    rw [chunkWords]
    by_cases h : ws.isEmpty ∨ k = 0
    · rw [if_pos h]
      rcases h with h | h
      · rw [List.isEmpty_iff.mp h]
        rfl
      · omega
    · rw [if_neg h]
      push_neg at h
      have hne : ws ≠ [] := by simpa [List.isEmpty_iff] using h.1
      have hlen : (ws.drop k).length ≤ n := by
        have h0 : 0 < ws.length := List.length_pos.mpr hne
        simp only [List.length_drop]
        omega
      rw [List.flatten_cons, ih (ws.drop k) hlen k hk, List.take_append_drop]

/-- Every block is non-empty (for block size ≥ 1) and draws its words from
the input. -/
theorem of_mem_chunkWords :
    ∀ (n : Nat) (ws : List (List Char)), ws.length ≤ n → ∀ k, 1 ≤ k →
      ∀ g ∈ chunkWords k ws, g ≠ [] ∧ ∀ w ∈ g, w ∈ ws := by
  intro n
  induction n with
  | zero =>
    intro ws hws k _ g hg
    have hnil : ws = [] := List.length_eq_zero.mp (Nat.le_zero.mp hws)
    subst hnil
    simp [chunkWords] at hg
  | succ n ih =>
    intro ws hws k hk g hg
    rw [chunkWords] at hg
    by_cases h : ws.isEmpty ∨ k = 0
    · rw [if_pos h] at hg
      simp at hg
    · rw [if_neg h] at hg
      push_neg at h
      have hne : ws ≠ [] := by simpa [List.isEmpty_iff] using h.1
      have hlen : (ws.drop k).length ≤ n := by
        have h0 : 0 < ws.length := List.length_pos.mpr hne
        simp only [List.length_drop]
        omega
      rcases List.mem_cons.mp hg with rfl | hg2
      · refine ⟨?_, fun w hw => List.mem_of_mem_take hw⟩
        rw [Ne, List.take_eq_nil_iff]
        push_neg
        exact ⟨by omega, hne⟩
      · have := ih (ws.drop k) hlen k hk g hg2
        exact ⟨this.1, fun w hw => List.mem_of_mem_drop (this.2 w hw)⟩

/-- The words of one paragraph's chunks, concatenated, are the paragraph's
words. -/
theorem paragraphChunks_words (k : Nat) (hk : 1 ≤ k) (p : List Char) :
    ((paragraphChunks k p).map pyWords).flatten = pyWords p := by
  unfold paragraphChunks
  have hmem : ∀ g ∈ chunkWords k (pyWords p), g ≠ [] ∧ ∀ w ∈ g, w ∈ pyWords p :=
    fun g hg => of_mem_chunkWords (pyWords p).length (pyWords p) le_rfl k hk g hg
  have hfilter : ((chunkWords k (pyWords p)).map joinSpace).filter (fun s => !s.isEmpty)
      = (chunkWords k (pyWords p)).map joinSpace := by
    rw [List.filter_eq_self]
    intro s hs
    rcases List.mem_map.mp hs with ⟨g, hg, rfl⟩
    have h1 := hmem g hg
    have h2 : joinSpace g ≠ [] :=
      joinSpace_ne_nil g h1.1 (fun w hw => (of_mem_pyWords p w (h1.2 w hw)).1)
    simpa [List.isEmpty_iff] using h2
  rw [hfilter, List.map_map]
  have hmapid : (chunkWords k (pyWords p)).map (pyWords ∘ joinSpace)
      = chunkWords k (pyWords p) := by
    have hcongr : ∀ g ∈ chunkWords k (pyWords p), (pyWords ∘ joinSpace) g = id g := by
      intro g hg
      have h1 := hmem g hg
      exact pyWords_joinSpace g (fun w hw => of_mem_pyWords p w (h1.2 w hw))
    rw [List.map_congr_left hcongr, List.map_id]
  rw [hmapid]
  exact chunkWords_flatten (pyWords p).length (pyWords p) le_rfl k hk

/-- Stripping and discarding whitespace-only paragraphs does not change the
concatenated word sequence. -/
theorem flatten_filtered_paragraphs :
    ∀ paras : List (List Char),
      ((((paras.map pyStrip).filter (fun p => !p.isEmpty)).map pyWords).flatten)
        = (paras.map pyWords).flatten := by
  intro paras
  induction paras with
  | nil => rfl
  | cons q rest ih =>
    simp only [List.map_cons, List.filter_cons]
    by_cases hq : (pyStrip q).isEmpty
    · have hq' : pyStrip q = [] := List.isEmpty_iff.mp hq
      rw [if_neg (by simp [hq]), List.flatten_cons, ih,
        pyWords_eq_nil_of_strip_nil q hq']
      rfl
    · rw [if_pos (by simp [hq]), List.map_cons, List.flatten_cons, List.flatten_cons,
        ih, pyWords_pyStrip]

/-- Chunking, then splitting each chunk back into words and concatenating,
reproduces the word sequence of the input text. -/
theorem split_into_chunks_words (text : List Char) (k : Nat) (hk : 1 ≤ k) :
    ((split_into_chunks text k).map pyWords).flatten = pyWords text := by
  unfold split_into_chunks
  have hcomm : ∀ l : List (List Char),
      ((l.flatMap (paragraphChunks k)).map pyWords).flatten
        = (l.map (fun p => ((paragraphChunks k p).map pyWords).flatten)).flatten := by
    intro l
    induction l with
    | nil => rfl
    | cons a l ih => simp [List.flatMap_cons, List.map_append, List.flatten_append, ih]
  rw [hcomm]
  rw [List.map_congr_left (fun p _ => paragraphChunks_words k hk p)]
  rw [flatten_filtered_paragraphs (pySplitParas text)]
  exact pySplitParas_words text

/-! ## Oracle-client and pipeline lemmas -/

/-- A successful `mapM` over `Except` only returns values the function
produced with `.ok`. -/
theorem mapM_except_mem {ε α β : Type} (f : α → Except ε β) (P : β → Prop)
    (hf : ∀ a b, f a = .ok b → P b) :
    ∀ (l : List α) (res : List β), l.mapM f = Except.ok res → ∀ b ∈ res, P b := by
  intro l
  induction l with
  | nil =>
    intro res h b hb
    simp only [List.mapM_nil] at h
    cases h
    simp at hb
  | cons a l ih =>
    intro res h b hb
    rw [List.mapM_cons] at h
    cases ha : f a with
    | error e => rw [ha] at h; simp [Bind.bind, Except.bind] at h
    | ok b0 =>
      rw [ha] at h
      cases hl : l.mapM f with
      | error e => rw [hl] at h; simp [Bind.bind, Except.bind] at h
      | ok bs =>
        rw [hl] at h
        simp only [Bind.bind, Except.bind, pure, Except.pure, Except.ok.injEq] at h
        subst h
        rcases List.mem_cons.mp hb with rfl | hb2
        · exact hf a b ha
        · exact ih bs hl b hb2

/-- A record that survives pydantic validation has its sentiment in range. -/
theorem mkTopicAnalysis_sentiment :
    ∀ (r : RawTopic) (t : TopicAnalysis), mkTopicAnalysis r = .ok t →
      -1 ≤ t.sentiment ∧ t.sentiment ≤ 1 := by
  intro r t h
  unfold mkTopicAnalysis at h
  by_cases hr : -1 ≤ r.sentiment ∧ r.sentiment ≤ 1
  · rw [if_pos hr] at h
    cases h
    exact hr
  · rw [if_neg hr] at h
    exact absurd h (by simp)

/-- Every topic of a successfully parsed full-transcript analysis has its
sentiment in range. -/
theorem parseFTA_sentiments (reply : OracleReply) (fta : FullTranscriptAnalysis)
    (h : parseFullTranscriptAnalysis reply = .ok fta) :
    ∀ t ∈ fta.topics, -1 ≤ t.sentiment ∧ t.sentiment ≤ 1 := by
  cases reply with
  | malformed raw e => simp [parseFullTranscriptAnalysis] at h
  | chunkPayload raw t s r => simp [parseFullTranscriptAnalysis] at h
  | topicsPayload raw ts =>
    simp only [parseFullTranscriptAnalysis] at h
    cases hm : ts.mapM mkTopicAnalysis with
    | error e => rw [hm] at h; simp [Except.map] at h
    | ok l =>
      rw [hm] at h
      simp only [Except.map, Except.ok.injEq] at h
      subst h
      intro t ht
      exact mapM_except_mem mkTopicAnalysis _ mkTopicAnalysis_sentiment ts l hm t ht

/-- Every topic of a `.ok` result of `analyze_full_transcript` has its
sentiment in range: parsed topics pass validation, and the fallback record
carries sentiment 0. -/
theorem analyze_full_transcript_sentiments (reply : OracleReply)
    (transcript : String) (wpm : Int) (fta : FullTranscriptAnalysis)
    (h : (analyze_full_transcript reply transcript wpm).1 = .ok fta) :
    ∀ t ∈ fta.topics, -1 ≤ t.sentiment ∧ t.sentiment ≤ 1 := by
  unfold analyze_full_transcript at h
  simp only [] at h
  cases hd : pyDivQ ((pyWordCount transcript : ℚ)) ((wpm : Int) : ℚ) with
  | error e => rw [hd] at h; simp at h
  | ok tm =>
    rw [hd] at h
    cases hp : parseFullTranscriptAnalysis reply with
    | ok fta2 =>
      rw [hp] at h
      simp at h
      subst h
      exact parseFTA_sentiments reply fta2 hp
    | error exc =>
      rw [hp] at h
      simp at h
      subst h
      intro t ht
      simp at ht
      subst ht
      simp

/-- Every topic of a `.ok` result of `analyze_with_custom_topics` has its
sentiment in range: parsed topics pass validation, and the fallback records
carry sentiment 0. -/
theorem analyze_with_custom_topics_sentiments (reply : OracleReply)
    (transcript : String) (cts : List String) (wpm : Int)
    (fta : FullTranscriptAnalysis)
    (h : (analyze_with_custom_topics reply transcript cts wpm).1 = .ok fta) :
    ∀ t ∈ fta.topics, -1 ≤ t.sentiment ∧ t.sentiment ≤ 1 := by
  unfold analyze_with_custom_topics at h
  simp only [] at h
  cases hd : pyDivQ ((pyWordCount transcript : ℚ)) ((wpm : Int) : ℚ) with
  | error e => rw [hd] at h; simp at h
  | ok tm =>
    rw [hd] at h
    cases hp : parseFullTranscriptAnalysis reply with
    | ok fta2 =>
      rw [hp] at h
      simp at h
      subst h
      exact parseFTA_sentiments reply fta2 hp
    | error exc =>
      rw [hp] at h
      simp only at h
      cases hm : cts.mapM (fun topic => do
          let m ← pyDivQ tm (cts.length : ℚ)
          let w ← pyFloorDiv (pyWordCount transcript) (cts.length : Int)
          pure (⟨topic, 0, m, w,
            "Analysis error: " ++ exc ++ ". Using fallback values."⟩ : TopicAnalysis)) with
      | error e => rw [hm] at h; simp at h
      | ok ts =>
        rw [hm] at h
        simp at h
        subst h
        intro t ht
        refine mapM_except_mem _ (fun t => -1 ≤ t.sentiment ∧ t.sentiment ≤ 1)
            ?_ cts ts hm t ht
        intro a b hab
        cases hm1 : pyDivQ tm (cts.length : ℚ) with
        | error e => rw [hm1] at hab; simp [Bind.bind, Except.bind] at hab
        | ok m =>
          rw [hm1] at hab
          cases hw1 : pyFloorDiv (pyWordCount transcript) (cts.length : Int) with
          | error e => rw [hw1] at hab; simp [Bind.bind, Except.bind] at hab
          | ok w =>
            rw [hw1] at hab
            simp only [Bind.bind, Except.bind, pure, Except.pure, Except.ok.injEq] at hab
            subst hab
            simp

/-- Rows of the final table are drawn from the analysis records. -/
theorem mem_pipelineTable (records : List TopicAnalysis) (k : Nat)
    (r : TopicAnalysis) (hr : r ∈ pipelineTable records k) : r ∈ records := by
  unfold pipelineTable at hr
  by_cases he : records.isEmpty
  · rw [if_pos he] at hr
    simp at hr
  · rw [if_neg he] at hr
    by_cases hlen : k < (sortDescMinutes records).length
    · rw [if_pos hlen] at hr
      exact (List.perm_insertionSort minutesGE records).subset (List.mem_of_mem_take hr)
    · rw [if_neg hlen] at hr
      exact (List.perm_insertionSort minutesGE records).subset hr

/-- The fold computing `df["sentiment"].min()` is bounded by its seed. -/
theorem foldl_min_le_init : ∀ (l : List ℚ) (a : ℚ), l.foldl min a ≤ a := by
  intro l
  induction l with
  | nil => intro a; exact le_refl a
  | cons x l ih =>
    intro a
    calc (x :: l).foldl min a = l.foldl min (min a x) := rfl
    _ ≤ min a x := ih (min a x)
    _ ≤ a := min_le_left a x

/-- The fold computing `df["sentiment"].min()` is bounded by every element. -/
theorem foldl_min_le_mem : ∀ (l : List ℚ) (a s : ℚ), s ∈ l → l.foldl min a ≤ s := by
  intro l
  induction l with
  | nil => intro a s hs; simp at hs
  | cons x l ih =>
    intro a s hs
    rcases List.mem_cons.mp hs with rfl | hs2
    · calc (s :: l).foldl min a = l.foldl min (min a s) := rfl
      _ ≤ min a s := foldl_min_le_init l (min a s)
      _ ≤ s := min_le_right a s
    · exact ih (min a x) s hs2

/-- A common lower bound of the seed and all elements bounds the fold. -/
theorem le_foldl_min : ∀ (l : List ℚ) (a c : ℚ), c ≤ a → (∀ s ∈ l, c ≤ s) →
    c ≤ l.foldl min a := by
  intro l
  induction l with
  | nil => intro a c hca _; exact hca
  | cons x l ih =>
    intro a c hca h
    exact ih (min a x) c (le_min hca (h x (by simp))) (fun s hs => h s (by simp [hs]))

theorem listMin_le (ss : List ℚ) (s : ℚ) (hs : s ∈ ss) : listMin ss ≤ s := by
  cases ss with
  | nil => simp at hs
  | cons x l =>
    rcases List.mem_cons.mp hs with rfl | hs2
    · exact foldl_min_le_init l s
    · exact foldl_min_le_mem l x s hs2

theorem listMin_nonneg (ss : List ℚ) (h : ∀ s ∈ ss, 0 ≤ s) : 0 ≤ listMin ss := by
  cases ss with
  | nil => exact le_refl 0
  | cons x l => exact le_foldl_min l x 0 (h x (by simp)) (fun s hs => h s (by simp [hs]))

/-! ## Claim theorems -/

/-- C2: for every input text and every `max_words ≥ 1`, concatenating the
words of the chunks returned by `split_into_chunks(text, max_words)`, in
chunk order, yields exactly the whitespace-split word sequence of the
original text: no word is lost, duplicated, or reordered. -/
theorem C2_chunks_preserve_words (text : List Char) (max_words : Nat)
    (h : 1 ≤ max_words) :
    (split_into_chunks text max_words).flatMap pyWords = pyWords text := by
  rw [List.flatMap_def]
  exact split_into_chunks_words text max_words h

/-- Witness for C2 at a concrete text and `max_words = 2`. -/
theorem C2_chunks_preserve_words_witness :
    1 ≤ 2 ∧ (split_into_chunks "hello world\n\nfoo bar baz".data 2).flatMap pyWords
      = pyWords "hello world\n\nfoo bar baz".data :=
  ⟨by decide, C2_chunks_preserve_words "hello world\n\nfoo bar baz".data 2 (by decide)⟩

/-- C4: for every oracle response, well-formed or not, every record in the
final analysis result returned by `run_pipeline` has a sentiment value
within `[-1.0, 1.0]`; out-of-range oracle sentiments never appear in the
output (pydantic validation rejects them, and rejection yields the neutral
fallback record). -/
theorem C4_sentiment_in_range (reply : OracleReply) (config : PipelineConfig)
    (out : List TopicAnalysis)
    (h : (run_pipeline reply config).1 = .ok out) :
    ∀ r ∈ out, -1 ≤ r.sentiment ∧ r.sentiment ≤ 1 := by
  intro r hr
  unfold run_pipeline at h
  simp only [] at h
  by_cases ht : pyTruthy config.custom_topics
  · rw [if_pos ht] at h
    cases ha : (analyze_with_custom_topics reply config.inputText
        (config.custom_topics.getD []) config.words_per_minute).1 with
    | error e =>
      rw [show analyze_with_custom_topics reply config.inputText
            (config.custom_topics.getD []) config.words_per_minute
          = ((analyze_with_custom_topics reply config.inputText
            (config.custom_topics.getD []) config.words_per_minute).1,
            (analyze_with_custom_topics reply config.inputText
            (config.custom_topics.getD []) config.words_per_minute).2) from rfl,
        ha] at h
      simp at h
    | ok fta =>
      rw [show analyze_with_custom_topics reply config.inputText
            (config.custom_topics.getD []) config.words_per_minute
          = ((analyze_with_custom_topics reply config.inputText
            (config.custom_topics.getD []) config.words_per_minute).1,
            (analyze_with_custom_topics reply config.inputText
            (config.custom_topics.getD []) config.words_per_minute).2) from rfl,
        ha] at h
      simp at h
      subst h
      exact analyze_with_custom_topics_sentiments reply config.inputText
        (config.custom_topics.getD []) config.words_per_minute fta ha r
        (mem_pipelineTable fta.topics config.max_topics r hr)
  · rw [if_neg ht] at h
    cases ha : (analyze_full_transcript reply config.inputText
        config.words_per_minute).1 with
    | error e =>
      rw [show analyze_full_transcript reply config.inputText config.words_per_minute
          = ((analyze_full_transcript reply config.inputText config.words_per_minute).1,
            (analyze_full_transcript reply config.inputText config.words_per_minute).2)
          from rfl, ha] at h
      simp at h
    | ok fta =>
      rw [show analyze_full_transcript reply config.inputText config.words_per_minute
          = ((analyze_full_transcript reply config.inputText config.words_per_minute).1,
            (analyze_full_transcript reply config.inputText config.words_per_minute).2)
          from rfl, ha] at h
      simp at h
      subst h
      exact analyze_full_transcript_sentiments reply config.inputText
        config.words_per_minute fta ha r
        (mem_pipelineTable fta.topics config.max_topics r hr)

set_option maxRecDepth 10000 in
/-- Witness for C4: an oracle reply carrying the out-of-range sentiment 3/2
triggers the fallback, and the output's sentiments are in range. -/
theorem C4_sentiment_in_range_witness :
    ((run_pipeline (.topicsPayload "raw" [⟨"T", 3/2, 1, 1, "r"⟩])
        ⟨"hello world", 155, 10, none⟩).1
      = .ok [⟨"Full Transcript Analysis", 0, 2/155, 2,
        "Analysis error: validation error: sentiment not in range. Raw: raw"⟩])
    ∧ ∀ r ∈ [(⟨"Full Transcript Analysis", 0, 2/155, 2,
        "Analysis error: validation error: sentiment not in range. Raw: raw"⟩ : TopicAnalysis)],
        -1 ≤ r.sentiment ∧ r.sentiment ≤ 1 :=
  ⟨by with_unfolding_all decide, C4_sentiment_in_range
    (.topicsPayload "raw" [⟨"T", 3/2, 1, 1, "r"⟩])
    ⟨"hello world", 155, 10, none⟩ _ (by with_unfolding_all decide)⟩

/-- C5: for every oracle reply that is not parseable as the expected JSON
shape, the client returns a fallback instead of raising: a single record
with sentiment 0 and a rationale naming the error (whole-transcript mode),
one `Uncategorized` fallback record per chunk (mode 1), and `run_pipeline`
completes without an exception. -/
theorem C5_malformed_fallback (raw excMsg transcript : String) (wpm : Int)
    (maxT : Nat) (chunks : List String) (hw : 1 ≤ wpm) :
    (analyze_full_transcript (.malformed raw excMsg) transcript wpm).1
      = .ok ⟨[⟨"Full Transcript Analysis", 0,
          (pyWordCount transcript : ℚ) / (wpm : ℚ), pyWordCount transcript,
          "Analysis error: " ++ excMsg ++ ". Raw: " ++ raw.take 200⟩]⟩
    ∧ analyze_chunks (fun _ => .malformed raw excMsg) chunks
      = chunks.map (fun _ => ⟨"Uncategorized", 0,
          "Parsing error: " ++ excMsg ++ ". Raw: " ++ raw.take 200⟩)
    ∧ ∃ out, (run_pipeline (.malformed raw excMsg) ⟨transcript, wpm, maxT, none⟩).1
        = .ok out := by
  have hb : ((wpm : ℚ)) ≠ 0 := by
    have hne : wpm ≠ 0 := by omega
    exact_mod_cast hne
  have hdiv : pyDivQ (pyWordCount transcript : ℚ) (wpm : ℚ)
      = .ok ((pyWordCount transcript : ℚ) / (wpm : ℚ)) := by
    unfold pyDivQ
    rw [if_neg hb]
  have hfull : (analyze_full_transcript (.malformed raw excMsg) transcript wpm).1
      = .ok ⟨[⟨"Full Transcript Analysis", 0,
          (pyWordCount transcript : ℚ) / (wpm : ℚ), pyWordCount transcript,
          "Analysis error: " ++ excMsg ++ ". Raw: " ++ raw.take 200⟩]⟩ := by
    unfold analyze_full_transcript
    simp only []
    rw [hdiv]
    rfl
  refine ⟨hfull, ?_, ?_⟩
  · unfold analyze_chunks
    exact List.map_congr_left (fun c _ => rfl)
  · refine ⟨pipelineTable [⟨"Full Transcript Analysis", 0,
        (pyWordCount transcript : ℚ) / (wpm : ℚ), pyWordCount transcript,
        "Analysis error: " ++ excMsg ++ ". Raw: " ++ raw.take 200⟩] maxT, ?_⟩
    unfold run_pipeline
    simp only []
    rw [if_neg (by simp [pyTruthy])]
    rw [show analyze_full_transcript (.malformed raw excMsg) transcript wpm
        = ((analyze_full_transcript (.malformed raw excMsg) transcript wpm).1,
          (analyze_full_transcript (.malformed raw excMsg) transcript wpm).2) from rfl,
      hfull]

/-- Witness for C5 at a concrete malformed reply. -/
theorem C5_malformed_fallback_witness :
    1 ≤ (155 : Int) ∧
    ((analyze_full_transcript (.malformed "not json" "Expecting value") "hello world" 155).1
      = .ok ⟨[⟨"Full Transcript Analysis", 0,
          (pyWordCount "hello world" : ℚ) / ((155 : Int) : ℚ), pyWordCount "hello world",
          "Analysis error: " ++ "Expecting value" ++ ". Raw: " ++ "not json".take 200⟩]⟩
    ∧ analyze_chunks (fun _ => .malformed "not json" "Expecting value") ["a chunk"]
      = ["a chunk"].map (fun _ => ⟨"Uncategorized", 0,
          "Parsing error: " ++ "Expecting value" ++ ". Raw: " ++ "not json".take 200⟩)
    ∧ ∃ out, (run_pipeline (.malformed "not json" "Expecting value")
        ⟨"hello world", 155, 10, none⟩).1 = .ok out) :=
  ⟨by decide, C5_malformed_fallback "not json" "Expecting value" "hello world" 155 10
    ["a chunk"] (by decide)⟩

/-- C9: the whole-transcript entry points divide by `wpm` unguarded: with
`wpm = 0` both raise `ZeroDivisionError` before issuing any oracle request,
while the unused helper `estimate_minutes` clamps its divisor to 1 and
never raises. -/
theorem C9_wpm_zero_division (transcript : String) (topics : List String)
    (r1 r2 : OracleReply) :
    analyze_full_transcript r1 transcript 0 = (.error .zeroDivisionError, [])
    ∧ analyze_with_custom_topics r2 transcript topics 0
      = (.error .zeroDivisionError, [])
    ∧ ∀ wc : Int, estimate_minutes wc 0 = (wc : ℚ) := by
  have hz : pyDivQ (pyWordCount transcript : ℚ) (((0 : Int)) : ℚ)
      = .error .zeroDivisionError := by
    unfold pyDivQ
    rw [if_pos (by norm_num)]
  refine ⟨?_, ?_, ?_⟩
  · unfold analyze_full_transcript
    simp only []
    rw [hz]
  · unfold analyze_with_custom_topics
    simp only []
    rw [hz]
  · intro wc
    unfold estimate_minutes
    norm_num

set_option maxRecDepth 10000 in
/-- C10 counterexample: with an empty custom-topics list and an unparseable
oracle reply, `analyze_with_custom_topics` does not raise
`ZeroDivisionError` — the fallback loop body never executes, and it returns
a fallback result with an empty topics list. -/
theorem C10_counterexample :
    (analyze_with_custom_topics (.malformed "not json" "Expecting value")
        "hello world" [] 155).1 = .ok ⟨[]⟩
    ∧ (analyze_with_custom_topics (.malformed "not json" "Expecting value")
        "hello world" [] 155).1 ≠ .error .zeroDivisionError := by
  constructor
  · with_unfolding_all decide
  · with_unfolding_all decide

/-- C10 amended: on the fallback path with an empty custom-topics list the
`for topic in custom_topics` loop performs no division at all and the
client returns a fallback result with zero records; and `run_pipeline`
treats an empty list as absent, routing to auto-topic analysis. -/
theorem C10_empty_topics_amended (raw excMsg transcript : String) (wpm : Int)
    (hw : 1 ≤ wpm) (reply : OracleReply) (cfg : PipelineConfig)
    (hcfg : cfg.custom_topics = some []) :
    (analyze_with_custom_topics (.malformed raw excMsg) transcript [] wpm).1 = .ok ⟨[]⟩
    ∧ run_pipeline reply cfg
      = run_pipeline reply { cfg with custom_topics := none } := by
  constructor
  · have hb : ((wpm : ℚ)) ≠ 0 := by
      have hne : wpm ≠ 0 := by omega
      exact_mod_cast hne
    unfold analyze_with_custom_topics
    simp only []
    rw [show pyDivQ (pyWordCount transcript : ℚ) (wpm : ℚ)
        = .ok ((pyWordCount transcript : ℚ) / (wpm : ℚ)) from by
      unfold pyDivQ
      rw [if_neg hb]]
    rfl
  · unfold run_pipeline
    rw [hcfg]
    simp [pyTruthy]

/-- Witness for the amended C10 at concrete inputs. -/
theorem C10_empty_topics_amended_witness :
    1 ≤ (155 : Int)
    ∧ (⟨"hi", 155, 10, some []⟩ : PipelineConfig).custom_topics = some []
    ∧ ((analyze_with_custom_topics (.malformed "not json" "boom") "hi" [] 155).1 = .ok ⟨[]⟩
      ∧ run_pipeline (.malformed "not json" "boom") ⟨"hi", 155, 10, some []⟩
        = run_pipeline (.malformed "not json" "boom")
          { (⟨"hi", 155, 10, some []⟩ : PipelineConfig) with custom_topics := none }) :=
  ⟨by decide, rfl, C10_empty_topics_amended "not json" "boom" "hi" 155 (by decide)
    (.malformed "not json" "boom") ⟨"hi", 155, 10, some []⟩ rfl⟩

set_option maxRecDepth 10000 in
/-- C3 counterexample: two oracle records sharing the topic label `"A"` pass
through `run_pipeline` as two separate output records — no merged record
with averaged sentiment and summed size is produced. -/
theorem C3_counterexample :
    (run_pipeline (.topicsPayload "x" [⟨"A", 1/2, 3, 10, "r1"⟩, ⟨"A", 1/10, 5, 4, "r2"⟩])
        ⟨"hello world", 155, 10, none⟩).1
      = .ok [⟨"A", 1/10, 5, 4, "r2"⟩, ⟨"A", 1/2, 3, 10, "r1"⟩]
    ∧ ([(⟨"A", 1/10, 5, 4, "r2"⟩ : TopicAnalysis), ⟨"A", 1/2, 3, 10, "r1"⟩].filter
        (fun r => r.topic == "A")).length = 2 := by
  constructor
  · with_unfolding_all decide
  · with_unfolding_all decide

/-- C3 amended: `run_pipeline` performs no grouping of equal topic labels:
its tabulation step passes records through unmodified (the output is a
subpermutation of the analysis records), so duplicate labels survive as
separate records and no mean or sum is computed. -/
theorem C3_no_merge_amended (records : List TopicAnalysis) (k : Nat) :
    (pipelineTable records k).Subperm records := by
  unfold pipelineTable
  by_cases he : records.isEmpty
  · rw [if_pos he]
    exact List.nil_subperm
  · rw [if_neg he]
    by_cases hlen : k < (sortDescMinutes records).length
    · rw [if_pos hlen]
      exact ((List.take_sublist k _).subperm).trans
        (List.perm_insertionSort minutesGE records).subperm
    · rw [if_neg hlen]
      exact (List.perm_insertionSort minutesGE records).subperm

set_option maxRecDepth 10000 in
/-- C6 counterexample: on the empty transcript the segmenter does return no
chunks, but `run_pipeline` raises nothing: it issues an oracle call with the
empty transcript and returns the fallback-derived result. -/
theorem C6_counterexample :
    split_into_chunks [] 180 = []
    ∧ (run_pipeline (.malformed "not json" "err") ⟨"", 155, 10, none⟩).2.length = 1
    ∧ (run_pipeline (.malformed "not json" "err") ⟨"", 155, 10, none⟩).1
      = .ok [⟨"Full Transcript Analysis", 0, 0, 0,
          "Analysis error: err. Raw: not json"⟩] := by
  refine ⟨?_, ?_, ?_⟩
  · decide
  · with_unfolding_all decide
  · with_unfolding_all decide

/-- C6 amended: for whitespace-only input the segmenter returns an empty
chunk sequence, but `run_pipeline` performs no content check and never
calls the segmenter: for every transcript (including the empty one) it
issues exactly one oracle call and returns a result instead of raising. -/
theorem C6_amended (text : List Char) (k : Nat) (h : pyWords text = [])
    (transcript : String) (wpm : Int) (maxT : Nat) (reply : OracleReply)
    (hw : 1 ≤ wpm) :
    split_into_chunks text k = []
    ∧ (run_pipeline reply ⟨transcript, wpm, maxT, none⟩).2 = [⟨transcript.take 8000⟩]
    ∧ ∃ res, (run_pipeline reply ⟨transcript, wpm, maxT, none⟩).1 = .ok res := by
  have hparas : ∀ p ∈ pySplitParas text, pyWords p = [] := by
    intro p hp
    have hflat := pySplitParas_words text
    rw [h] at hflat
    exact List.flatten_eq_nil_iff.mp hflat (pyWords p) (List.mem_map_of_mem pyWords hp)
  have hb : ((wpm : ℚ)) ≠ 0 := by
    have hne : wpm ≠ 0 := by omega
    exact_mod_cast hne
  have hdiv : pyDivQ (pyWordCount transcript : ℚ) (wpm : ℚ)
      = .ok ((pyWordCount transcript : ℚ) / (wpm : ℚ)) := by
    unfold pyDivQ
    rw [if_neg hb]
  have hcalls : (analyze_full_transcript reply transcript wpm).2
      = [⟨transcript.take 8000⟩] := by
    unfold analyze_full_transcript
    simp only []
    rw [hdiv]
    cases hp : parseFullTranscriptAnalysis reply <;> rfl
  have hok : ∃ fta, (analyze_full_transcript reply transcript wpm).1 = .ok fta := by
    cases hp : parseFullTranscriptAnalysis reply with
    | ok fta =>
      refine ⟨fta, ?_⟩
      unfold analyze_full_transcript
      simp only []
      rw [hdiv, hp]
    | error exc =>
      refine ⟨⟨[⟨"Full Transcript Analysis", 0,
        (pyWordCount transcript : ℚ) / (wpm : ℚ), pyWordCount transcript,
        "Analysis error: " ++ exc ++ ". Raw: " ++ reply.rawText.take 200⟩]⟩, ?_⟩
      unfold analyze_full_transcript
      simp only []
      rw [hdiv, hp]
  obtain ⟨fta, hfta⟩ := hok
  have hrun : run_pipeline reply ⟨transcript, wpm, maxT, none⟩
      = (.ok (pipelineTable fta.topics maxT),
        (analyze_full_transcript reply transcript wpm).2) := by
    unfold run_pipeline
    simp only []
    rw [if_neg (by simp [pyTruthy])]
    rw [show analyze_full_transcript reply transcript wpm
        = ((analyze_full_transcript reply transcript wpm).1,
          (analyze_full_transcript reply transcript wpm).2) from rfl, hfta]
  refine ⟨?_, ?_, ⟨pipelineTable fta.topics maxT, ?_⟩⟩
  · unfold split_into_chunks
    simp only []
    rw [List.flatMap_eq_nil_iff]
    intro q hq
    rcases List.mem_filter.mp hq with ⟨hq1, _⟩
    rcases List.mem_map.mp hq1 with ⟨p, hp, rfl⟩
    have hw0 : pyWords (pyStrip p) = [] := by
      rw [pyWords_pyStrip]
      exact hparas p hp
    unfold paragraphChunks
    rw [hw0]
    rw [show chunkWords k [] = [] from by rw [chunkWords]; simp]
    rfl
  · rw [hrun]
    exact hcalls
  · rw [hrun]

/-- Witness for the amended C6 on a whitespace-only text and the empty
transcript. -/
theorem C6_amended_witness :
    pyWords "  \n\n \t".data = [] ∧ 1 ≤ (155 : Int)
    ∧ (split_into_chunks "  \n\n \t".data 180 = []
      ∧ (run_pipeline (.malformed "not json" "err") ⟨"", 155, 10, none⟩).2
        = [⟨"".take 8000⟩]
      ∧ ∃ res, (run_pipeline (.malformed "not json" "err") ⟨"", 155, 10, none⟩).1
          = .ok res) :=
  ⟨by decide, by decide,
    C6_amended "  \n\n \t".data 180 (by decide) "" 155 10
      (.malformed "not json" "err") (by decide)⟩

/-- C7: when there are more records than `max_topics`, the table keeps
exactly `max_topics` rows, sorted descending by `minutes`, and every kept
row's `minutes` dominates every dropped row's `minutes` — only the
smallest-size tail is dropped. -/
theorem C7_topic_cap (records : List TopicAnalysis) (k : Nat)
    (h : k < records.length) :
    (pipelineTable records k).length = k
    ∧ (pipelineTable records k).Sorted minutesGE
    ∧ ∃ rest, records.Perm (pipelineTable records k ++ rest)
        ∧ ∀ r ∈ pipelineTable records k, ∀ d ∈ rest, d.minutes ≤ r.minutes := by
  have hne : records ≠ [] := by
    intro hnil
    subst hnil
    simp at h
  have hlen2 : (sortDescMinutes records).length = records.length :=
    (List.perm_insertionSort minutesGE records).length_eq
  have htab : pipelineTable records k = (sortDescMinutes records).take k := by
    unfold pipelineTable
    rw [if_neg (by simpa [List.isEmpty_iff] using hne), if_pos (by omega)]
  have hsorted : (sortDescMinutes records).Sorted minutesGE :=
    List.sorted_insertionSort minutesGE records
  refine ⟨?_, ?_, ⟨(sortDescMinutes records).drop k, ?_, ?_⟩⟩
  · rw [htab, List.length_take]
    omega
  · rw [htab]
    exact List.Pairwise.sublist (List.take_sublist k _) hsorted
  · rw [htab, List.take_append_drop]
    exact (List.perm_insertionSort minutesGE records).symm
  · intro r hr d hd
    rw [htab] at hr
    have h2 : List.Pairwise minutesGE
        ((sortDescMinutes records).take k ++ (sortDescMinutes records).drop k) := by
      rw [List.take_append_drop]
      exact hsorted
    exact (List.pairwise_append.mp h2).2.2 r hr d hd

/-- Fifteen records with distinct `minutes` values, for the C7 witness. -/
def c7recs : List TopicAnalysis :=
  (List.range 15).map (fun i => ⟨"T", 0, (i : ℚ), 0, ""⟩)

/-- Witness for C7: fifteen records against a cap of ten. -/
theorem C7_topic_cap_witness :
    10 < c7recs.length
    ∧ ((pipelineTable c7recs 10).length = 10
      ∧ (pipelineTable c7recs 10).Sorted minutesGE
      ∧ ∃ rest, c7recs.Perm (pipelineTable c7recs 10 ++ rest)
          ∧ ∀ r ∈ pipelineTable c7recs 10, ∀ d ∈ rest, d.minutes ≤ r.minutes) :=
  ⟨by decide, C7_topic_cap c7recs 10 (by decide)⟩

/-- C1 counterexample: on the all-non-negative sentiment set
`{0.2, 0.5, 0.9}` the treemap renderer's `sentiment_colorscale` still
returns the diverging domain `(-1, 1)` rather than the claimed `(0, 1)`. -/
theorem C1_counterexample :
    (sentiment_colorscale [1/5, 1/2, 9/10]).2 = (-1, 1)
    ∧ (sentiment_colorscale [1/5, 1/2, 9/10]).2 ≠ ((0 : ℚ), (1 : ℚ))
    ∧ ∀ s ∈ [(1/5 : ℚ), 1/2, 9/10], 0 ≤ s := by
  refine ⟨rfl, ?_, ?_⟩
  · with_unfolding_all decide
  · with_unfolding_all decide

/-- C1 amended: `sentiment_colorscale` (report.py) is not adaptive — it
returns the fixed five-stop diverging red–white–green scale with domain
`[-1, 1]` for every input; only `generate_heatmap`
(ctev_earnings_call_analysis.py) adapts, and it adapts the normalization
domain alone — `(0, 1)` when all sentiments are ≥ 0, `(-1, 1)` when any is
negative — keeping the same `RdYlGn` colormap in both branches. -/
theorem C1_colorscale_amended (ss : List ℚ) (_hne : ss ≠ []) :
    sentiment_colorscale ss
      = ([(0, "#d73027"), (1/4, "#fc8d59"), (1/2, "#f7f7f7"),
          (3/4, "#91cf60"), (1, "#1a9850")], -1, 1)
    ∧ ((∀ s ∈ ss, 0 ≤ s) → heatmap_color_norm ss = (0, 1, "RdYlGn"))
    ∧ ((∃ s ∈ ss, s < 0) → heatmap_color_norm ss = (-1, 1, "RdYlGn")) := by
  refine ⟨rfl, ?_, ?_⟩
  · intro hpos
    unfold heatmap_color_norm
    simp only []
    rw [if_pos (listMin_nonneg ss hpos)]
  · rintro ⟨s, hs, hneg⟩
    unfold heatmap_color_norm
    simp only []
    rw [if_neg (by
      intro hcon
      exact absurd (le_trans hcon (listMin_le ss s hs)) (not_le.mpr hneg))]

/-- Witness for the amended C1 on a set containing a negative sentiment. -/
theorem C1_colorscale_amended_witness :
    ([(1/5 : ℚ), -1/2] ≠ [])
    ∧ (sentiment_colorscale [1/5, -1/2]
        = ([(0, "#d73027"), (1/4, "#fc8d59"), (1/2, "#f7f7f7"),
            (3/4, "#91cf60"), (1, "#1a9850")], -1, 1)
      ∧ ((∀ s ∈ [(1/5 : ℚ), -1/2], 0 ≤ s) →
          heatmap_color_norm [1/5, -1/2] = (0, 1, "RdYlGn"))
      ∧ ((∃ s ∈ [(1/5 : ℚ), -1/2], s < 0) →
          heatmap_color_norm [1/5, -1/2] = (-1, 1, "RdYlGn"))) :=
  ⟨List.cons_ne_nil _ _, C1_colorscale_amended [1/5, -1/2] (List.cons_ne_nil _ _)⟩

end CTEV
